import Mathlib

/-!
Verification development for the UniTrackCodeGen repository (a C# → TypeScript /
Zod code generator written in Rust: `src/config.rs`, `src/main.rs`,
`src/processor.rs`).

The Rust code is shallowly embedded below.  Pure string-building functions
become Lean functions on `String`/`List Char`; the filesystem is an explicit
`World` value; `chrono::Local::now()` becomes an explicit `now : String`
argument; the result of `Config::load()` (which reads `cs2ts.toml` from disk)
becomes an explicit `Except ConfigError Config` argument wherever the source
calls it.  Rust functions that can panic (`unwrap` on `Option::None`) return
`Option`, with `none` standing for the panic.  Recursions that are not
structural in the source (scanning a string left to right, slicing out
substrings) are driven by an explicit fuel argument that is always supplied
with at least the length of the scanned list, so the out-of-fuel branch is
unreachable at every call site appearing in the theorems.
-/

set_option maxRecDepth 100000

namespace UniTrack

/-! ## Character classes and list utilities -/

/-- whitespace, as used by Rust `char::is_whitespace` / `trim` /  regex `\s`
(the inputs of interest are ASCII, where the two notions agree). -/
def isWs (c : Char) : Bool := c = ' ' || c = '\t' || c = '\n' || c = '\r'

/-- regex word character `\w` / `[a-zA-Z0-9_]`. -/
def isWordChar (c : Char) : Bool :=
  (('a' ≤ c && c ≤ 'z') || ('A' ≤ c && c ≤ 'Z') || ('0' ≤ c && c ≤ '9') || c = '_')

/-- the character class of `PROPERTY_REGEX`'s `type` group:
`[a-zA-Z0-9_<>?\[\]\.]`. -/
def isTypeChar (c : Char) : Bool :=
  isWordChar c || c = '<' || c = '>' || c = '?' || c = '[' || c = ']' || c = '.'

/-- Rust `str::trim` on a character list: strip whitespace from both ends. -/
def trimL (l : List Char) : List Char :=
  ((l.dropWhile isWs).reverse.dropWhile isWs).reverse

/-- Rust `str::trim`, on `String`. -/
def trimS (s : String) : String := ⟨trimL s.data⟩

/-- Rust `str::split` on a single separator character: every occurrence
separates, empty pieces included (kernel-reducible, unlike
`String.splitOn`). -/
def splitCharGo (sep : Char) (cur : List Char) : List Char → List String
  | [] => [(⟨cur.reverse⟩ : String)]
  | c :: rest =>
    if c = sep then (⟨cur.reverse⟩ : String) :: splitCharGo sep [] rest
    else splitCharGo sep (c :: cur) rest

def splitChar (s : String) (sep : Char) : List String := splitCharGo sep [] s.data

/-! ## The IR: `CSharpType` (processor.rs lines 63–76) -/

inductive CSharpType where
  | String
  | Int
  | Double
  | Decimal
  | Bool
  | DateTime
  | Guid
  | Array (elem : CSharpType)
  | Nullable (inner : CSharpType)
  | Dictionary (key value : CSharpType)
  | Custom (name : String)
  deriving DecidableEq, Repr

/-! ## The type lexicon: `CSharpType::from_string` (processor.rs lines 282–311)

The Rust function recurses on slices of its input, so the embedding is driven
by a fuel argument; `CSharpType.from_string` supplies `length + 1`, which is
sufficient because every recursive call is on a strictly shorter list
(`fsGo_fuel_irrel` makes the fuel irrelevant above that bound).  The source
can panic: `s.find('>').unwrap()` on a generic prefix with no `>`, and
`parts.next().unwrap()` on a `Dictionary<...>` argument list with no comma.
Those panics are `none`. -/

/-- One step of the `from_string` match, with the recursive call abstracted
(the fuel-driven `fsGo` below ties the knot). -/
def fsStep (rec : List Char → Option CSharpType) (s : List Char) : Option CSharpType :=
    if s = "string".data then some .String
    else if s = "int".data ∨ s = "Int32".data then some .Int
    else if s = "double".data ∨ s = "Double".data then some .Double
    else if s = "decimal".data ∨ s = "Decimal".data then some .Decimal
    else if s = "bool".data ∨ s = "Boolean".data then some .Bool
    else if s = "DateTime".data then some .DateTime
    else if s = "Guid".data then some .Guid
    else if "List<".data.isPrefixOf s ∨ "IEnumerable<".data.isPrefixOf s then
      -- let inner = s[s.find('<').unwrap() + 1..s.find('>').unwrap()].trim();
      -- the slice between the first '<' and the first '>' is
      -- ((s.dropWhile (· ≠ '<')).drop 1).takeWhile (· ≠ '>')  (the matched
      -- prefix contains no '>'), and a missing '>' is the unwrap panic.
      if ((s.dropWhile (· ≠ '<')).drop 1).contains '>' then
        (rec (trimL (((s.dropWhile (· ≠ '<')).drop 1).takeWhile (· ≠ '>')))).map .Array
      else none
    else if "Dictionary<".data.isPrefixOf s then
      -- let content = &s[..]; let mut parts = content.split(',');
      -- key = parts.next().unwrap().trim(); value = parts.next().unwrap().trim();
      -- a missing ',' makes the second next() the unwrap panic.
      if ((s.dropWhile (· ≠ '<')).drop 1).contains '>' then
        if (((s.dropWhile (· ≠ '<')).drop 1).takeWhile (· ≠ '>')).contains ',' then
          match
            rec (trimL ((((s.dropWhile (· ≠ '<')).drop 1).takeWhile (· ≠ '>')).takeWhile (· ≠ ','))),
            rec (trimL ((((((s.dropWhile (· ≠ '<')).drop 1).takeWhile (· ≠ '>')).dropWhile (· ≠ ',')).drop 1).takeWhile (· ≠ ',')))
          with
          | some k, some v => some (.Dictionary k v)
          | _, _ => none
        else none
      else none
    else if s.getLast? = some '?' then
      (rec s.dropLast).map .Nullable
    else some (.Custom ⟨s⟩)

def fsGo : Nat → List Char → Option CSharpType
  | 0, _ => none
  | fuel+1, s => fsStep (fsGo fuel) s

/-- `CSharpType::from_string` (top-level name: inside the `CSharpType`
namespace the bare identifier `String` would resolve to the constructor). -/
def from_string (s : String) : Option CSharpType :=
  fsGo (s.data.length + 1) s.data

/-! ## `CSharpType::to_zod_type` (processor.rs lines 313–347)

The source computes a `base_type` by structural recursion and then appends the
terminal modifier — note that the recursive calls go through `to_zod_type`
itself, so the modifier is appended at every nesting level. -/

def to_zod_type (t : CSharpType) (localized is_update_dto : Bool) : String :=
  let base_type : String :=
    match t with
    | .String => "z.string()"
    | .Int => "z.number().int()"
    | .Double => "z.number()"
    | .Decimal => "z.number()"
    | .Bool => "z.boolean()"
    | .Guid => "z.string().uuid()"
    | .DateTime =>
        if localized then "z.date().or(z.string().datetime())" else "z.string().datetime()"
    | .Array inner => "z.array(" ++ to_zod_type inner localized is_update_dto ++ ")"
    | .Nullable inner => to_zod_type inner localized is_update_dto ++ ".nullable()"
    | .Dictionary key value =>
        "z.record(" ++ to_zod_type key localized is_update_dto ++ ", " ++
          to_zod_type value localized is_update_dto ++ ")"
    | .Custom name => name ++ "Schema"
  if is_update_dto then base_type ++ ".optional()" else base_type ++ ".required()"

/-! ## Predicates about the IR used by the invariant claims -/

/-- two consecutive `?` characters occur somewhere in the list. -/
def hasDoubleQ : List Char → Bool
  | [] => false
  | c :: rest => (c = '?' && rest.head? = some '?') || hasDoubleQ rest

/-- no `Nullable` node has another `Nullable` as its immediate child. -/
def nestedOk : CSharpType → Bool
  | .Array t => nestedOk t
  | .Nullable (.Nullable _) => false
  | .Nullable t => nestedOk t
  | .Dictionary k v => nestedOk k && nestedOk v
  | _ => true

/-! ## Configuration (config.rs lines 4–63)

`PathBuf` is modelled as `String`. -/

structure ImportConfig where
  name : String
  path : String
  deriving DecidableEq, Repr

structure Config where
  extensions : List String
  ignore : List String
  input_dir : Option String
  output_dir : Option String
  localized : Bool
  i18n_library : String
  additional_imports : List ImportConfig
  deriving DecidableEq, Repr

/-- `Config::default` / the serde field defaults (config.rs lines 39–63). -/
def Config.default : Config :=
  { extensions := ["cs"]
    ignore := []
    input_dir := none
    output_dir := none
    localized := false
    i18n_library := "vue-i18n"
    additional_imports := [] }

/-- `ConfigError` (config.rs lines 90–100). -/
inductive ConfigError where
  | NotFound
  | IoError
  | ParseError
  deriving DecidableEq, Repr

/-- `Config::load().unwrap_or_default()` (the only way `main` and
`to_typescript` consume a load result; main.rs line 91, processor.rs line 500).
The argument models what `Config::load()` returned. -/
def unwrap_or_default (load_result : Except ConfigError Config) : Config :=
  match load_result with
  | .ok c => c
  | .error _ => Config.default

/-- What `main` (main.rs lines 89–92) does at startup before dispatching on the
subcommand: it resolves the configuration and always goes on to run the engine;
no configuration-load outcome aborts the program. -/
inductive StartupAction where
  | runEngine (c : Config)
  | abort (e : ConfigError)
  deriving DecidableEq, Repr

def main_startup (load_result : Except ConfigError Config) : StartupAction :=
  .runEngine (unwrap_or_default load_result)

/-! ## `generate_file_header` (processor.rs lines 115–156)

`Local::now().format("%Y-%m-%d %H:%M:%S")` is the explicit `now` argument. -/

def generate_file_header (config : Config) (file_type : String) (now : String) : String :=
  "/**\n" ++
  " * Generated with UniTrackCodeGen at " ++ now ++ "\n" ++
  " * \n" ++
  " * Configuration:\n" ++
  " * - File Type: " ++ file_type ++ "\n" ++
  " * - Input Directory: " ++ (config.input_dir.getD "default") ++ "\n" ++
  " * - Output Directory: " ++ (config.output_dir.getD "default") ++ "\n" ++
  " * - Extensions: [" ++ String.intercalate ", " config.extensions ++ "]\n" ++
  " * - Localization: " ++ (if config.localized then "enabled" else "disabled") ++ "\n" ++
  " */\n\n"

/-! ## The parsed IR (processor.rs lines 78–113)

`ValidationRule.parameters` is a `HashMap<String, String>` in the source, used
only through `get`; an association list with `List.lookup` models it. -/

structure EnumValue where
  name : String
  display_name : Option String
  documentation : Option String
  deriving DecidableEq, Repr

structure CSharpEnum where
  name : String
  values : List EnumValue
  documentation : Option String
  deriving DecidableEq, Repr

structure ValidationRule where
  rule_type : String
  parameters : List (String × String)
  error_message : Option String
  condition : Option String
  deriving DecidableEq, Repr

structure DtoProperty where
  name : String
  type_name : CSharpType
  validations : List ValidationRule
  documentation : Option String
  deriving DecidableEq, Repr

structure CSharpDto where
  name : String
  properties : List DtoProperty
  documentation : Option String
  deriving DecidableEq, Repr

/-- `CSharpDto::is_update_dto` (processor.rs lines 586–588). -/
def CSharpDto.is_update_dto (d : CSharpDto) : Bool :=
  "Update".data.isPrefixOf d.name.data

/-! ## `ValidationRule::to_zod_validation` (processor.rs lines 350–436) -/

def to_zod_validation (v : ValidationRule) (prop_name : String) (localized : Bool) :
    Option String :=
  if v.rule_type = "Required" then some ".required()"
  else if v.rule_type = "Range" then
    match v.parameters.lookup "Minimum", v.parameters.lookup "Maximum" with
    | some min, some max =>
      let error_msg :=
        if localized then "t('" ++ prop_name ++ ".range')"
        else v.error_message.getD ("Value must be between " ++ min ++ " and " ++ max)
      some (".min(" ++ min ++ ", \x7b message: " ++ error_msg ++ " \x7d).max(" ++
        max ++ ", \x7b message: " ++ error_msg ++ " \x7d)")
    | _, _ => none
  else if v.rule_type = "StringLength" then
    some
      ((match v.parameters.lookup "MinimumLength" with
        | some min =>
          let error_msg :=
            if localized then "t('" ++ prop_name ++ ".minLength')"
            else v.error_message.getD ("Minimum length is " ++ min)
          ".min(" ++ min ++ ", \x7b message: " ++ error_msg ++ " \x7d)"
        | none => "") ++
      (match v.parameters.lookup "MaximumLength" with
        | some max =>
          let error_msg :=
            if localized then "t('" ++ prop_name ++ ".maxLength')"
            else v.error_message.getD ("Maximum length is " ++ max)
          ".max(" ++ max ++ ", \x7b message: " ++ error_msg ++ " \x7d)"
        | none => ""))
  else if v.rule_type = "EmailAddress" then
    let error_msg :=
      if localized then "t('" ++ prop_name ++ ".email')"
      else v.error_message.getD "Invalid email address"
    some (".email(\x7b message: " ++ error_msg ++ " \x7d)")
  else if v.rule_type = "Phone" then
    let error_msg :=
      if localized then "t('" ++ prop_name ++ ".phone')"
      else v.error_message.getD "Invalid phone number"
    some (".regex(/^\\+?[1-9]\\d\x7b1,14\x7d$/, \x7b message: " ++ error_msg ++ " \x7d)")
  else if v.rule_type = "RegularExpression" then
    match v.parameters.lookup "pattern" with
    | some pattern =>
      let error_msg :=
        if localized then "t('" ++ prop_name ++ ".pattern')"
        else v.error_message.getD "Invalid format"
      some (".regex(new RegExp('" ++ pattern ++ "'), \x7b message: " ++ error_msg ++ " \x7d)")
    | none => none
  else none

/-! ## `CSharpDto::to_zod_schema` (processor.rs lines 590–665)

The source accumulates into a mutable `output` with `push_str`; the embedding
is the same text as one concatenation.  The per-property loop body (lines
627–651) is split out so that theorems can speak about a single emitted field
line. -/

/-- the validation fragments appended after the base expression (processor.rs
lines 638–647): rules named `Required` are skipped, rules whose
`to_zod_validation` is `None` contribute nothing. -/
def prop_validation_suffix (p : DtoProperty) (localized : Bool) : String :=
  String.join (p.validations.map fun v =>
    if v.rule_type ≠ "Required" then (to_zod_validation v p.name localized).getD ""
    else "")

/-- the full expression after `name: ` in an emitted field line. -/
def schema_field_expr (p : DtoProperty) (localized is_update : Bool) : String :=
  to_zod_type p.type_name localized is_update ++ prop_validation_suffix p localized

/-- one property's contribution to the schema body: optional doc line, then
`    name: expr,` (processor.rs lines 627–651). -/
def schema_line (p : DtoProperty) (localized is_update : Bool) : String :=
  (match p.documentation with
   | some d => "    /** " ++ d ++ " */\n"
   | none => "") ++
  "    " ++ p.name ++ ": " ++ schema_field_expr p localized is_update ++ ",\n"

def to_zod_schema (dto : CSharpDto) (config : Config) (now : String) : String :=
  generate_file_header config "Zod Schema" now ++
  "import \x7b z \x7d from 'zod';\n" ++
  (if config.localized then
    "import \x7b useI18n \x7d from '" ++ config.i18n_library ++ "';\n"
   else "") ++
  String.join (config.additional_imports.map fun i =>
    "import " ++ i.name ++ " from '" ++ i.path ++ "';\n") ++
  "\n" ++
  (match dto.documentation with
   | some d => "/**\n * " ++ d ++ "\n */\n"
   | none => "") ++
  (if config.localized then
    "export const " ++ dto.name ++ "Schema = () => \x7b\n" ++
    "  const \x7b t \x7d = useI18n();\n" ++
    "  return z.object(\x7b\n"
   else
    "export const " ++ dto.name ++ "Schema = z.object(\x7b\n") ++
  String.join (dto.properties.map fun p =>
    schema_line p config.localized dto.is_update_dto) ++
  (if config.localized then "  \x7d);\n\x7d;\n" else "\x7d);\n") ++
  "\nexport type " ++ dto.name ++ " = z.infer<typeof " ++ dto.name ++ "Schema>;\n"

/-! ## `CSharpEnum::to_typescript` (processor.rs lines 495–528)

The renderer *reloads the configuration from disk* for its header
(`Config::load().unwrap_or_default()`, line 500); that ambient load result is
the explicit `ambient_load` argument.  The part after the header depends only
on the enum value. -/

/-- processor.rs lines 505–527: everything `to_typescript` emits after the
header. -/
def enum_body (e : CSharpEnum) : String :=
  (match e.documentation with
   | some d => "/**\n * " ++ d ++ "\n */\n"
   | none => "") ++
  "export enum " ++ e.name ++ " \x7b\n" ++
  String.join (e.values.map fun v =>
    (match v.documentation with
     | some d => "  /** " ++ d ++ " */\n"
     | none => "") ++
    "  " ++ v.name ++ " = '" ++ (v.display_name.getD v.name) ++ "',\n") ++
  "\x7d\n"

def to_typescript (e : CSharpEnum) (ambient_load : Except ConfigError Config)
    (now : String) : String :=
  generate_file_header (unwrap_or_default ambient_load) "Enum" now ++ enum_body e

/-! ## The source parser (processor.rs lines 10–23, 438–493, 531–584)

The source drives everything with the `regex` crate.  Each regex is modelled
by a scanner that tries to match at every position from left to right and, on
a match, continues after its end — which is exactly `captures_iter` for these
patterns: every quantifier in them is greedy over a character class that is
disjoint from whatever must follow it, so matching at a fixed position is
deterministic and backtracking never helps. -/

/-- `{` and `}` as characters. -/
def lbrace : Char := Char.ofNat 123
def rbrace : Char := Char.ofNat 125

/-- consume an exact literal. -/
def expectLit (lit l : List Char) : Option (List Char) :=
  if lit.isPrefixOf l then some (l.drop lit.length) else none

/-- consume regex `\s+` (at least one whitespace, maximally). -/
def wsPlus : List Char → Option (List Char)
  | [] => none
  | c :: rest => if isWs c then some (rest.dropWhile isWs) else none

/-- Rust `str::split_whitespace` (maximal whitespace runs separate words,
no empty items). -/
def splitWsGo (cur : List Char) : List Char → List (List Char)
  | [] => if cur.isEmpty then [] else [cur.reverse]
  | c :: rest =>
    if isWs c then
      (if cur.isEmpty then splitWsGo [] rest else cur.reverse :: splitWsGo [] rest)
    else splitWsGo (c :: cur) rest

/-- Rust `str::lines`: split on `\n`, drop one trailing empty piece when the
string ends in `\n`, strip a trailing `\r` from each line. -/
def rustLines (s : String) : List String :=
  if s.data.isEmpty then []
  else
    let parts := splitChar s '\n'
    let parts := if s.data.getLast? = some '\n' then parts.dropLast else parts
    parts.map fun l => if l.data.getLast? = some '\r' then (⟨l.data.dropLast⟩ : String) else l

/-- `DOC_COMMENT_REGEX`'s closing alternation `</(?:summary|remarks|example)>`
(each closer is 10 characters; the opening and closing tag names are matched
independently, exactly as in the source pattern). -/
def docCloserDrop (l : List Char) : Option (List Char) :=
  if "</summary>".data.isPrefixOf l then some (l.drop 10)
  else if "</remarks>".data.isPrefixOf l then some (l.drop 10)
  else if "</example>".data.isPrefixOf l then some (l.drop 10)
  else none

/-- `<(?:summary|remarks|example)>` (each opener is 9 characters). -/
def docOpenerDrop (l : List Char) : Option (List Char) :=
  if "<summary>".data.isPrefixOf l then some (l.drop 9)
  else if "<remarks>".data.isPrefixOf l then some (l.drop 9)
  else if "<example>".data.isPrefixOf l then some (l.drop 9)
  else none

/-- the lazy group `(.*?)` followed by the closing tag: take the shortest run
of non-newline characters after which a closer starts (regex `.` does not
match `\n`).  Returns the captured group and the text after the closer. -/
def docBodyGo : Nat → List Char → Option (List Char × List Char)
  | _, [] => none
  | 0, _ => none
  | fuel+1, c :: rest =>
    match docCloserDrop (c :: rest) with
    | some after => some ([], after)
    | none =>
      if c = '\n' then none
      else (docBodyGo fuel rest).map fun p => (c :: p.1, p.2)

/-- `DOC_COMMENT_REGEX` = `///\s*<(?:summary|remarks|example)>(.*?)</(?:…)>`
anchored at the current position. -/
def matchDocAt (fuel : Nat) (l : List Char) : Option (List Char × List Char) :=
  if "///".data.isPrefixOf l then
    match docOpenerDrop ((l.drop 3).dropWhile isWs) with
    | some afterOpen => docBodyGo fuel afterOpen
    | none => none
  else none

/-- all captures of `DOC_COMMENT_REGEX` over a text, in order
(`captures_iter`). -/
def docCapturesGo : Nat → List Char → List (List Char)
  | 0, _ => []
  | _, [] => []
  | fuel+1, c :: rest =>
    match matchDocAt fuel (c :: rest) with
    | some (cap, after) => cap :: docCapturesGo fuel after
    | none => docCapturesGo fuel rest

/-- the closure `get_documentation` (processor.rs lines 443–447): first
`DOC_COMMENT_REGEX` capture, trimmed. -/
def docFirstTrim (s : String) : Option String :=
  ((docCapturesGo s.data.length s.data).head?).map fun l => trimS ⟨l⟩

/-- `DISPLAY_ATTR_REGEX` = `\[Display\(Name\s*=\s*"([^"]+)"\)\]` anchored at
the current position ("[Display(Name" is 13 characters). -/
def matchDisplayAt (l : List Char) : Option (List Char) :=
  if "[Display(Name".data.isPrefixOf l then
    match (l.drop 13).dropWhile isWs with
    | '=' :: a1 =>
      match a1.dropWhile isWs with
      | '"' :: a2 =>
        let cap := a2.takeWhile (· ≠ '"')
        if cap.isEmpty then none
        else
          match a2.dropWhile (· ≠ '"') with
          | '"' :: ')' :: ']' :: _ => some cap
          | _ => none
      | _ => none
    | _ => none
  else none

/-- first `DISPLAY_ATTR_REGEX` capture in a text (`captures`). -/
def findDisplayGo : Nat → List Char → Option String
  | 0, _ => none
  | _, [] => none
  | fuel+1, c :: rest =>
    match matchDisplayAt (c :: rest) with
    | some cap => some ⟨cap⟩
    | none => findDisplayGo fuel rest

/-- `ENUM_REGEX` = `public\s+enum\s+(?P<name>\w+)\s*\{(?P<body>[^}]+)\}`
anchored at the current position; returns name, body and the rest after the
match. -/
def matchEnumAt (l : List Char) : Option (String × String × List Char) :=
  match expectLit "public".data l with
  | none => none
  | some l1 =>
    match wsPlus l1 with
    | none => none
    | some l2 =>
      match expectLit "enum".data l2 with
      | none => none
      | some l3 =>
        match wsPlus l3 with
        | none => none
        | some l4 =>
          let nm := l4.takeWhile isWordChar
          if nm.isEmpty then none
          else
            match (l4.drop nm.length).dropWhile isWs with
            | c :: l5 =>
              if c = lbrace then
                let body := l5.takeWhile (· ≠ rbrace)
                if body.isEmpty then none
                else
                  match l5.dropWhile (· ≠ rbrace) with
                  | _ :: after => some (⟨nm⟩, ⟨body⟩, after)
                  | [] => none
              else none
            | [] => none

/-- all `ENUM_REGEX` matches with their start offsets (`captures_iter`). -/
def scanEnumsGo : Nat → Nat → List Char → List (Nat × String × String)
  | 0, _, _ => []
  | _, _, [] => []
  | fuel+1, pos, c :: rest =>
    match matchEnumAt (c :: rest) with
    | some (nm, body, after) =>
      (pos, nm, body) :: scanEnumsGo fuel (pos + ((c :: rest).length - after.length)) after
    | none => scanEnumsGo fuel (pos + 1) rest

/-- one enum body item (processor.rs lines 467–482): `name` is the last
whitespace-separated token (the item is non-empty after trimming, so
`last().unwrap()` cannot fire; the default covers the unreachable case). -/
def enum_value_of_item (item : String) : EnumValue :=
  { name := ⟨(splitWsGo [] item.data).getLast?.getD []⟩
    display_name := findDisplayGo item.data.length item.data
    documentation := docFirstTrim item }

/-- the three preceding lines, reversed and joined (processor.rs lines
454–461). -/
def enum_doc_window (before : String) : String :=
  String.intercalate "\n" ((rustLines before).reverse.take 3)

/-- `CSharpEnum::parse` (processor.rs lines 439–493); it always returns `Ok`. -/
def CSharpEnum.parse (content : String) : List CSharpEnum :=
  (scanEnumsGo content.data.length 0 content.data).map fun m =>
    { name := m.2.1
      values :=
        (((splitChar m.2.2 ',').map trimS).filter (fun i => i ≠ "")).map enum_value_of_item
      documentation := docFirstTrim (enum_doc_window ⟨content.data.take m.1⟩) }

/-- `DTO_REGEX` = `public\s+record\s+(?P<name>\w+)\s*\((?P<props>[^)]+)\)`
anchored at the current position. -/
def matchRecordAt (l : List Char) : Option (String × String × List Char) :=
  match expectLit "public".data l with
  | none => none
  | some l1 =>
    match wsPlus l1 with
    | none => none
    | some l2 =>
      match expectLit "record".data l2 with
      | none => none
      | some l3 =>
        match wsPlus l3 with
        | none => none
        | some l4 =>
          let nm := l4.takeWhile isWordChar
          if nm.isEmpty then none
          else
            match (l4.drop nm.length).dropWhile isWs with
            | '(' :: l5 =>
              let props := l5.takeWhile (· ≠ ')')
              if props.isEmpty then none
              else
                match l5.dropWhile (· ≠ ')') with
                | _ :: after => some (⟨nm⟩, ⟨props⟩, after)
                | [] => none
            | _ => none

/-- all `DTO_REGEX` matches with their start offsets (`captures_iter`). -/
def scanRecordsGo : Nat → Nat → List Char → List (Nat × String × String)
  | 0, _, _ => []
  | _, _, [] => []
  | fuel+1, pos, c :: rest =>
    match matchRecordAt (c :: rest) with
    | some (nm, props, after) =>
      (pos, nm, props) :: scanRecordsGo fuel (pos + ((c :: rest).length - after.length)) after
    | none => scanRecordsGo fuel (pos + 1) rest

/-- the tail `(?:\s*,|\s*$)` of `PROPERTY_REGEX`, under the `(?m)` flag:
after optional whitespace a comma, or an end-of-line / end-of-input position
reachable through whitespace ( `$` matches at the end and before a `\n`). -/
def propTerminatorOk (l : List Char) : Bool :=
  (l.dropWhile isWs).head? = some ',' ||
  (let r := l.dropWhile fun c => isWs c && c ≠ '\n'
   r.isEmpty || r.head? = some '\n')

/-- `PROPERTY_REGEX` = `(?m)(?P<type>[a-zA-Z0-9_<>?\[\]\.]+)\s+(?P<name>[a-zA-Z0-9_]+)(?:\s*,|\s*$)`
anchored at the current position. -/
def propCaptureAt (l : List Char) : Option (List Char × List Char) :=
  let ty := l.takeWhile isTypeChar
  if ty.isEmpty then none
  else
    match l.drop ty.length with
    | [] => none
    | c :: rest =>
      if isWs c then
        let l2 := rest.dropWhile isWs
        let nm := l2.takeWhile isWordChar
        if nm.isEmpty then none
        else if propTerminatorOk (l2.drop nm.length) then some (ty, nm)
        else none
      else none

/-- first `PROPERTY_REGEX` match in a fragment (`captures`). -/
def propCaptureGo : Nat → List Char → Option (List Char × List Char)
  | 0, _ => none
  | _, [] => none
  | fuel+1, c :: rest =>
    match propCaptureAt (c :: rest) with
    | some r => some r
    | none => propCaptureGo fuel rest

/-- the property loop of `CSharpDto::parse` (processor.rs lines 555–574):
fragments with no `PROPERTY_REGEX` match are skipped; a captured type token
goes through `CSharpType::from_string`, whose panic propagates (`none`).
The parser attaches no validation rules (`validations: Vec::new()`). -/
def parsePropsGo : List String → Option (List DtoProperty)
  | [] => some []
  | frag :: rest =>
    match propCaptureGo (trimS frag).data.length (trimS frag).data with
    | none => parsePropsGo rest
    | some (ty, nm) =>
      match from_string (trimS ⟨ty⟩) with
      | none => none
      | some t =>
        (parsePropsGo rest).map fun ps =>
          { name := (⟨nm⟩ : String)
            type_name := t
            validations := []
            documentation :=
              let docs := String.intercalate "\n"
                ((docCapturesGo frag.data.length frag.data).map fun c => trimS ⟨c⟩)
              if docs = "" then none else some docs } :: ps

def buildDtos (content : String) : List (Nat × String × String) → Option (List CSharpDto)
  | [] => some []
  | m :: rest =>
    match parsePropsGo (splitChar m.2.2 ',') with
    | none => none
    | some props =>
      (buildDtos content rest).map fun ds =>
        { name := m.2.1
          properties := props
          documentation :=
            let docs := String.intercalate "\n"
              ((docCapturesGo m.1 (content.data.take m.1)).map fun c => trimS ⟨c⟩)
            if docs = "" then none else some docs } :: ds

/-- `CSharpDto::parse` (processor.rs lines 532–584); the `Result` it returns
is always `Ok`, but `CSharpType::from_string` inside it can panic, which is
the outer `none`. -/
def CSharpDto.parse (content : String) : Option (List CSharpDto) :=
  buildDtos content (scanRecordsGo content.data.length 0 content.data)

/-! ## The incremental engine (processor.rs lines 26–279)

Paths (`PathBuf`) are strings with `/` separators.  The filesystem is a
`World`: file contents, the set of paths whose deletion fails (modelling the
operating system refusing `remove_file`), and the ambient result of
`Config::load()` consumed by `to_typescript`.  `create_dir_all` and
`fs::write` are modelled as always succeeding; `remove_file` fails exactly on
the `undeletable` paths.  The two `HashMap`s of `FileProcessor` are
association lists used through `List.lookup`. -/

/-- the external `seahash` crate: a deterministic 64-bit content hash.
Only determinism matters to any claim; a 64-bit polynomial hash models it. -/
def seaHash (l : List Char) : Nat :=
  l.foldl (fun h c => (h * 31 + c.toNat) % (2 ^ 64)) 5381

structure ProcessingStats where
  files_processed : Nat
  enums_generated : Nat
  schemas_generated : Nat
  files_skipped : Nat
  deriving DecidableEq, Repr

structure FileProcessor where
  file_hashes : List (String × Nat)
  file_mapping : List (String × List String)
  stats : ProcessingStats
  deriving DecidableEq, Repr

/-- `FileProcessor::new` (processor.rs lines 159–165). -/
def FileProcessor.new : FileProcessor :=
  { file_hashes := [], file_mapping := [], stats := ⟨0, 0, 0, 0⟩ }

deriving instance DecidableEq for Except

structure World where
  files : List (String × String)
  undeletable : List String
  configLoad : Except ConfigError Config
  deriving DecidableEq, Repr

def readFile (w : World) (p : String) : Option String :=
  (w.files.find? (fun kv => kv.1 = p)).map (·.2)

def fileExists (w : World) (p : String) : Bool :=
  (readFile w p).isSome

def writeFile (w : World) (p content : String) : World :=
  { w with files := (p, content) :: w.files.filter (fun kv => kv.1 ≠ p) }

def removeFile (w : World) (p : String) : World :=
  { w with files := w.files.filter (fun kv => kv.1 ≠ p) }

/-- `FileProcessor::should_process_file` (processor.rs lines 167–184): an
unreadable file is "do not process" with no state change; an unchanged hash is
"do not process"; otherwise the new hash is recorded and the file is
processed. -/
def should_process_file (w : World) (fp : FileProcessor) (path : String) :
    FileProcessor × Bool :=
  match readFile w path with
  | none => (fp, false)
  | some content =>
    let hash := seaHash content.data
    match fp.file_hashes.lookup path with
    | some old =>
      if old = hash then (fp, false)
      else
        ({ fp with file_hashes :=
            (path, hash) :: fp.file_hashes.filter (fun kv => kv.1 ≠ path) }, true)
    | none =>
      ({ fp with file_hashes :=
          (path, hash) :: fp.file_hashes.filter (fun kv => kv.1 ≠ path) }, true)

/-- `FileProcessor::register_output` (processor.rs lines 186–191):
`entry(input).or_insert(vec![]).push(output)`. -/
def updateMapping : List (String × List String) → String → String →
    List (String × List String)
  | [], input, output => [(input, [output])]
  | (k, v) :: rest, input, output =>
    if k = input then (k, v ++ [output]) :: rest
    else (k, v) :: updateMapping rest input output

def register_output (fp : FileProcessor) (input output : String) : FileProcessor :=
  { fp with file_mapping := updateMapping fp.file_mapping input output }

/-- the loop of `FileProcessor::cleanup_outputs` (processor.rs lines 197–206):
delete every registered output that still exists; `remove_file(output)?`
propagates the first failure, keeping the deletions already made. -/
def removeOutputs : World → List String → World × Bool
  | w, [] => (w, true)
  | w, p :: ps =>
    if fileExists w p then
      if p ∈ w.undeletable then (w, false)
      else removeOutputs (removeFile w p) ps
    else removeOutputs w ps

def cleanup_outputs (w : World) (fp : FileProcessor) (input : String) : World × Bool :=
  removeOutputs w ((fp.file_mapping.lookup input).getD [])

/-- Rust `str::replace` (used for `.cs` → `.ts` / `.schema.ts`): replace every
leftmost non-overlapping occurrence.  Fueled; the pattern is never empty at
the call sites (for an empty pattern Rust would interleave the replacement
everywhere, a case the program never exercises). -/
def replaceGo (pat rep : List Char) : Nat → List Char → List Char
  | _, [] => []
  | 0, s => s
  | fuel+1, c :: rest =>
    if pat.isPrefixOf (c :: rest) && !pat.isEmpty then
      rep ++ replaceGo pat rep fuel ((c :: rest).drop pat.length)
    else c :: replaceGo pat rep fuel rest

def replaceAllStr (s pat rep : String) : String :=
  ⟨replaceGo pat.data rep.data s.data.length s.data⟩

/-- `Path::strip_prefix` with `unwrap_or(input_path)` (processor.rs line 214). -/
def stripPrefixPath (p root : String) : String :=
  if p = root then ""
  else if (root ++ "/").data.isPrefixOf p.data then ⟨p.data.drop (root ++ "/").data.length⟩
  else p

/-- `Path::join` on the string model. -/
def joinPath (a b : String) : String :=
  if a = "" then b else if b = "" then a else a ++ "/" ++ b

/-- `Path::parent`: `none` for an empty or root path, otherwise the path
without its final component (`""` when there is no separator). -/
def parentPath (p : String) : Option String :=
  if p = "" ∨ p = "/" then none
  else if p.data.contains '/' then
    some ⟨(p.data.reverse.dropWhile (· ≠ '/')).drop 1 |>.reverse⟩
  else some ""

/-- `Path::file_name` (with the `unwrap` of processor.rs line 246: the inputs
reaching it are regular files, where `file_name` is the final component). -/
def fileName (p : String) : String :=
  ⟨(p.data.reverse.takeWhile (· ≠ '/')).reverse⟩

/-- `FileProcessor::get_relative_output_path` (processor.rs lines 208–216). -/
def get_relative_output_path (input_path input_root output_root : String) : String :=
  joinPath output_root (stripPrefixPath input_path input_root)

inductive RunResult where
  | ok
  | ioError
  | panicked
  deriving DecidableEq, Repr

/-- the enum loop of `process_file` (processor.rs lines 236–254): derive the
output path, write `to_typescript` (which reloads the configuration from
disk — `w.configLoad`), register the output, bump the counter. -/
def writeEnumOutputs (w : World) (fp : FileProcessor) (es : List CSharpEnum)
    (input output_dir : String) (now : String) : World × FileProcessor :=
  match es with
  | [] => (w, fp)
  | e :: rest =>
    let out_path := joinPath output_dir (replaceAllStr (fileName input) ".cs" ".ts")
    let w2 := writeFile w out_path (to_typescript e w.configLoad now)
    let fp2 := register_output fp input out_path
    let fp3 := { fp2 with stats :=
      { fp2.stats with enums_generated := fp2.stats.enums_generated + 1 } }
    writeEnumOutputs w2 fp3 rest input output_dir now

/-- the DTO loop of `process_file` (processor.rs lines 257–275). -/
def writeDtoOutputs (w : World) (fp : FileProcessor) (ds : List CSharpDto)
    (input output_dir : String) (config : Config) (now : String) :
    World × FileProcessor :=
  match ds with
  | [] => (w, fp)
  | d :: rest =>
    let out_path := joinPath output_dir (replaceAllStr (fileName input) ".cs" ".schema.ts")
    let w2 := writeFile w out_path (to_zod_schema d config now)
    let fp2 := register_output fp input out_path
    let fp3 := { fp2 with stats :=
      { fp2.stats with schemas_generated := fp2.stats.schemas_generated + 1 } }
    writeDtoOutputs w2 fp3 rest input output_dir config now

/-- `FileProcessor::process_file` (processor.rs lines 218–278).  The order is
the source's: skip check, `files_processed`, cleanup (`?` on failure), read
(`?` on failure), enum loop, DTO parse (whose `from_string` panic aborts the
process), DTO loop. -/
def process_file (w : World) (fp : FileProcessor)
    (input_path input_root output_root : String) (config : Config) (now : String) :
    World × FileProcessor × RunResult :=
  let sp := should_process_file w fp input_path
  if sp.2 = false then
    (w, { sp.1 with stats :=
      { sp.1.stats with files_skipped := sp.1.stats.files_skipped + 1 } }, RunResult.ok)
  else
    let fp2 := { sp.1 with stats :=
      { sp.1.stats with files_processed := sp.1.stats.files_processed + 1 } }
    let cl := cleanup_outputs w fp2 input_path
    if cl.2 = false then (cl.1, fp2, RunResult.ioError)
    else
      match readFile cl.1 input_path with
      | none => (cl.1, fp2, RunResult.ioError)
      | some content =>
        let relative_path := get_relative_output_path input_path input_root output_root
        let output_dir := (parentPath relative_path).getD output_root
        let er := writeEnumOutputs cl.1 fp2 (CSharpEnum.parse content) input_path output_dir now
        match CSharpDto.parse content with
        | none => (er.1, er.2, RunResult.panicked)
        | some dtos =>
          let dr := writeDtoOutputs er.1 er.2 dtos input_path output_dir config now
          (dr.1, dr.2, RunResult.ok)

/-! # Theorems -/

theorem dropWhile_length_le (p : Char → Bool) (l : List Char) :
    (l.dropWhile p).length ≤ l.length := (List.dropWhile_sublist p).length_le

theorem takeWhile_length_le (p : Char → Bool) (l : List Char) :
    (l.takeWhile p).length ≤ l.length := (List.takeWhile_sublist p).length_le

theorem trimL_length_le (l : List Char) : (trimL l).length ≤ l.length := by
  have h1 := dropWhile_length_le isWs (l.dropWhile isWs).reverse
  have h2 := dropWhile_length_le isWs l
  simp only [trimL, List.length_reverse] at h1 ⊢
  omega

/-- `trimL l` is an infix of `l`. -/
theorem trimL_within (l : List Char) : trimL l <:+: l := by
  have h1 : l.dropWhile isWs <:+ l := List.dropWhile_suffix isWs
  have h2 : (l.dropWhile isWs).reverse.dropWhile isWs <:+ (l.dropWhile isWs).reverse :=
    List.dropWhile_suffix isWs
  rcases h2 with ⟨u, hu⟩
  have h3 : trimL l <+: l.dropWhile isWs := by
    refine ⟨u.reverse, ?_⟩
    have := congrArg List.reverse hu
    simpa [trimL, List.reverse_append] using this
  exact h3.isInfix.trans h1.isInfix

theorem afterLt_length_lt (p : Char → Bool) {s : List Char} (h : s ≠ []) :
    ((s.dropWhile p).drop 1).length < s.length := by
  have h1 := dropWhile_length_le p s
  have h2 : ((s.dropWhile p).drop 1).length = (s.dropWhile p).length - 1 := by
    simp
  have h3 : 1 ≤ s.length := by
    cases s
    · simp at h
    · simp
  omega

/-- the fuel argument of `fsGo` is irrelevant above the list length, so
`from_string` computes the unique fixpoint of the source recursion. -/
theorem fsGo_fuel_irrel (f : Nat) :
    ∀ (g : Nat) (s : List Char), s.length < f → s.length < g → fsGo f s = fsGo g s := by
  induction f with
  | zero => exact fun g s hf _ => absurd hf (Nat.not_lt_zero _)
  | succ f ih =>
    intro g s hf hg
    obtain ⟨g, rfl⟩ : ∃ g', g = g' + 1 := ⟨g - 1, by omega⟩
    show fsStep (fsGo f) s = fsStep (fsGo g) s
    rw [fsStep, fsStep]
    by_cases h1 : s = "string".data
    · rw [if_pos h1, if_pos h1]
    rw [if_neg h1, if_neg h1]
    by_cases h2 : s = "int".data ∨ s = "Int32".data
    · rw [if_pos h2, if_pos h2]
    rw [if_neg h2, if_neg h2]
    by_cases h3 : s = "double".data ∨ s = "Double".data
    · rw [if_pos h3, if_pos h3]
    rw [if_neg h3, if_neg h3]
    by_cases h4 : s = "decimal".data ∨ s = "Decimal".data
    · rw [if_pos h4, if_pos h4]
    rw [if_neg h4, if_neg h4]
    by_cases h5 : s = "bool".data ∨ s = "Boolean".data
    · rw [if_pos h5, if_pos h5]
    rw [if_neg h5, if_neg h5]
    by_cases h6 : s = "DateTime".data
    · rw [if_pos h6, if_pos h6]
    rw [if_neg h6, if_neg h6]
    by_cases h7 : s = "Guid".data
    · rw [if_pos h7, if_pos h7]
    rw [if_neg h7, if_neg h7]
    by_cases h8 : "List<".data.isPrefixOf s = true ∨ "IEnumerable<".data.isPrefixOf s = true
    · -- List< / IEnumerable< branch
      rw [if_pos h8, if_pos h8]
      have hne : s ≠ [] := by intro hs; subst hs; revert h8; decide
      have ha := afterLt_length_lt (· ≠ '<') hne
      have hb := takeWhile_length_le (· ≠ '>') ((s.dropWhile (· ≠ '<')).drop 1)
      have hc := trimL_length_le (((s.dropWhile (· ≠ '<')).drop 1).takeWhile (· ≠ '>'))
      by_cases h8b : ((s.dropWhile (· ≠ '<')).drop 1).contains '>' = true
      · rw [if_pos h8b, if_pos h8b, ih g _ (by omega) (by omega)]
      · rw [if_neg h8b, if_neg h8b]
    rw [if_neg h8, if_neg h8]
    by_cases h10 : "Dictionary<".data.isPrefixOf s = true
    · -- Dictionary branch
      rw [if_pos h10, if_pos h10]
      have hne : s ≠ [] := by intro hs; subst hs; revert h10; decide
      have ha := afterLt_length_lt (· ≠ '<') hne
      have hb := takeWhile_length_le (· ≠ '>') ((s.dropWhile (· ≠ '<')).drop 1)
      have hc := takeWhile_length_le (· ≠ ',')
        (((s.dropWhile (· ≠ '<')).drop 1).takeWhile (· ≠ '>'))
      have hd := trimL_length_le
        ((((s.dropWhile (· ≠ '<')).drop 1).takeWhile (· ≠ '>')).takeWhile (· ≠ ','))
      have he := dropWhile_length_le (· ≠ ',')
        (((s.dropWhile (· ≠ '<')).drop 1).takeWhile (· ≠ '>'))
      have hf2 : (((((s.dropWhile (· ≠ '<')).drop 1).takeWhile (· ≠ '>')).dropWhile
          (· ≠ ',')).drop 1).length =
          ((((s.dropWhile (· ≠ '<')).drop 1).takeWhile (· ≠ '>')).dropWhile
            (· ≠ ',')).length - 1 := by simp
      have hg2 := takeWhile_length_le (· ≠ ',')
        ((((((s.dropWhile (· ≠ '<')).drop 1).takeWhile (· ≠ '>')).dropWhile (· ≠ ',')).drop 1))
      have hh := trimL_length_le
        ((((((s.dropWhile (· ≠ '<')).drop 1).takeWhile (· ≠ '>')).dropWhile
          (· ≠ ',')).drop 1).takeWhile (· ≠ ','))
      by_cases h10b : ((s.dropWhile (· ≠ '<')).drop 1).contains '>' = true
      · rw [if_pos h10b, if_pos h10b]
        by_cases h10c :
            ((((s.dropWhile (· ≠ '<')).drop 1).takeWhile (· ≠ '>'))).contains ',' = true
        · rw [if_pos h10c, if_pos h10c, ih g _ (by omega) (by omega),
            ih g _ (by omega) (by omega)]
        · rw [if_neg h10c, if_neg h10c]
      · rw [if_neg h10b, if_neg h10b]
    rw [if_neg h10, if_neg h10]
    by_cases h12 : s.getLast? = some '?'
    · -- trailing '?' branch
      rw [if_pos h12, if_pos h12]
      have hne : s ≠ [] := by intro hs; subst hs; revert h12; decide
      have ha : s.dropLast.length = s.length - 1 := List.length_dropLast s
      have hb : 1 ≤ s.length := by
        cases s
        · simp at hne
        · simp
      rw [ih g _ (by omega) (by omega)]
    rw [if_neg h12, if_neg h12]

theorem from_string_eq_fsGo {f : Nat} {s : String} (h : s.data.length < f) :
    from_string s = fsGo f s.data :=
  fsGo_fuel_irrel _ f s.data (Nat.lt_succ_self _) h

/-! ## Claim C3: order of the lexicon rules -/

/-- Claim C3, as stated, is false on the code: the trailing-`?` rule is the
*last* guard of the `match`, after the generic-prefix rules, so
`IEnumerable<int>?` is captured by the `IEnumerable<` arm — the trailing `?`
is silently discarded and the result is `Array(Int)`, not
`Nullable(Array(Int))`. -/
theorem claim3_counterexample :
    from_string "IEnumerable<int>?" = some (CSharpType.Array CSharpType.Int) ∧
    from_string "IEnumerable<int>?" ≠
      (from_string "IEnumerable<int>").map CSharpType.Nullable := by
  constructor
  · decide
  · decide

/-- Claim C3 (amended): the trailing-`?` rule applies *after* the primitive
aliases and the generic-prefix rules: for every token that ends with `?` and
does not start with `List<`, `IEnumerable<` or `Dictionary<`, the lexicon
returns `Nullable` applied to the lexicon of the token with the final `?`
removed (no primitive alias ends in `?`, so those arms never fire on such a
token). -/
theorem claim3_amended (s : String)
    (h1 : s.data.getLast? = some '?')
    (h2 : "List<".data.isPrefixOf s.data = false)
    (h3 : "IEnumerable<".data.isPrefixOf s.data = false)
    (h4 : "Dictionary<".data.isPrefixOf s.data = false) :
    from_string s = (from_string ⟨s.data.dropLast⟩).map CSharpType.Nullable := by
  have hne : s.data ≠ [] := by
    intro hz
    rw [hz] at h1
    exact absurd h1 (by decide)
  have hlen : 0 < s.data.length := List.length_pos.mpr hne
  show fsStep (fsGo s.data.length) s.data = _
  rw [fsStep,
    if_neg (show ¬ s.data = "string".data by
      intro hh; rw [hh] at h1; exact absurd h1 (by decide)),
    if_neg (show ¬ (s.data = "int".data ∨ s.data = "Int32".data) by
      rintro (hh | hh) <;> (rw [hh] at h1; exact absurd h1 (by decide))),
    if_neg (show ¬ (s.data = "double".data ∨ s.data = "Double".data) by
      rintro (hh | hh) <;> (rw [hh] at h1; exact absurd h1 (by decide))),
    if_neg (show ¬ (s.data = "decimal".data ∨ s.data = "Decimal".data) by
      rintro (hh | hh) <;> (rw [hh] at h1; exact absurd h1 (by decide))),
    if_neg (show ¬ (s.data = "bool".data ∨ s.data = "Boolean".data) by
      rintro (hh | hh) <;> (rw [hh] at h1; exact absurd h1 (by decide))),
    if_neg (show ¬ s.data = "DateTime".data by
      intro hh; rw [hh] at h1; exact absurd h1 (by decide)),
    if_neg (show ¬ s.data = "Guid".data by
      intro hh; rw [hh] at h1; exact absurd h1 (by decide)),
    if_neg (by simp [h2, h3]),
    if_neg (by simp [h4]),
    if_pos h1]
  exact congrArg (Option.map CSharpType.Nullable)
    (fsGo_fuel_irrel s.data.length (s.data.dropLast.length + 1) s.data.dropLast
      (by rw [List.length_dropLast]; omega) (Nat.lt_succ_self _))

/-- concrete instantiation of `claim3_amended` at the token `CustomType?`. -/
theorem claim3_witness :
    "CustomType?".data.getLast? = some '?' ∧
    "List<".data.isPrefixOf "CustomType?".data = false ∧
    "IEnumerable<".data.isPrefixOf "CustomType?".data = false ∧
    "Dictionary<".data.isPrefixOf "CustomType?".data = false ∧
    from_string "CustomType?" =
      (from_string ⟨"CustomType?".data.dropLast⟩).map CSharpType.Nullable :=
  ⟨by decide, by decide, by decide, by decide,
    claim3_amended "CustomType?" (by decide) (by decide) (by decide) (by decide)⟩

/-! ## Claim C4: no directly nested `Nullable` -/

theorem hdq_cons (c : Char) {l : List Char} (h : hasDoubleQ l = true) :
    hasDoubleQ (c :: l) = true := by
  simp [hasDoubleQ, h]

theorem hdq_append_right (a : List Char) {b : List Char} (h : hasDoubleQ b = true) :
    hasDoubleQ (a ++ b) = true := by
  induction a with
  | nil => simpa using h
  | cons c a ih => exact hdq_cons c ih

theorem hdq_append_left {a : List Char} (b : List Char) (h : hasDoubleQ a = true) :
    hasDoubleQ (a ++ b) = true := by
  induction a with
  | nil => simp [hasDoubleQ] at h
  | cons c a ih =>
    rw [List.cons_append]
    simp only [hasDoubleQ, Bool.or_eq_true] at h ⊢
    rcases h with h | h
    · left
      cases a with
      | nil => simp at h
      | cons d a' => simpa using h
    · right
      exact ih h

theorem hdq_within {m l : List Char} (hinf : m <:+: l) (h : hasDoubleQ m = true) :
    hasDoubleQ l = true := by
  rcases hinf with ⟨u, v, rfl⟩
  rw [List.append_assoc]
  exact hdq_append_right u (hdq_append_left v h)

theorem hdq_false_of_within {m l : List Char} (hinf : m <:+: l)
    (h : hasDoubleQ l = false) : hasDoubleQ m = false := by
  cases hm : hasDoubleQ m
  · rfl
  · rw [hdq_within hinf hm] at h
    exact absurd h (by simp)

theorem exists_concat_of_getLast {l : List Char} {c : Char}
    (h : l.getLast? = some c) : ∃ m, l = m ++ [c] := by
  induction l with
  | nil => simp at h
  | cons a t ih =>
    cases t with
    | nil =>
      simp at h
      exact ⟨[], by simp [h]⟩
    | cons b t' =>
      rw [List.getLast?_cons_cons] at h
      obtain ⟨m, hm⟩ := ih h
      exact ⟨a :: m, by simp [hm]⟩

/-- a list ending in `?` whose `dropLast` also ends in `?` contains `??`. -/
theorem hdq_last_two {l : List Char} (h1 : l.getLast? = some '?')
    (h2 : l.dropLast.getLast? = some '?') : hasDoubleQ l = true := by
  obtain ⟨m, rfl⟩ := exists_concat_of_getLast h1
  rw [List.dropLast_concat] at h2
  obtain ⟨m', rfl⟩ := exists_concat_of_getLast h2
  rw [List.append_assoc]
  exact hdq_append_right m' (by decide)

/-- only the trailing-`?` arm of the lexicon produces a `Nullable` node. -/
theorem fsStep_nullable_last (rec : List Char → Option CSharpType) (l : List Char)
    (t : CSharpType) (h : fsStep rec l = some (CSharpType.Nullable t)) :
    l.getLast? = some '?' := by
  rw [fsStep] at h
  by_cases h1 : l = "string".data
  · rw [if_pos h1] at h; simp at h
  rw [if_neg h1] at h
  by_cases h2 : l = "int".data ∨ l = "Int32".data
  · rw [if_pos h2] at h; simp at h
  rw [if_neg h2] at h
  by_cases h3 : l = "double".data ∨ l = "Double".data
  · rw [if_pos h3] at h; simp at h
  rw [if_neg h3] at h
  by_cases h4 : l = "decimal".data ∨ l = "Decimal".data
  · rw [if_pos h4] at h; simp at h
  rw [if_neg h4] at h
  by_cases h5 : l = "bool".data ∨ l = "Boolean".data
  · rw [if_pos h5] at h; simp at h
  rw [if_neg h5] at h
  by_cases h6 : l = "DateTime".data
  · rw [if_pos h6] at h; simp at h
  rw [if_neg h6] at h
  by_cases h7 : l = "Guid".data
  · rw [if_pos h7] at h; simp at h
  rw [if_neg h7] at h
  by_cases h8 : "List<".data.isPrefixOf l = true ∨ "IEnumerable<".data.isPrefixOf l = true
  · rw [if_pos h8] at h
    by_cases h8b : ((l.dropWhile (· ≠ '<')).drop 1).contains '>' = true
    · rw [if_pos h8b, Option.map_eq_some'] at h
      obtain ⟨x, -, hx⟩ := h
      simp at hx
    · rw [if_neg h8b] at h
      simp at h
  rw [if_neg h8] at h
  by_cases h10 : "Dictionary<".data.isPrefixOf l = true
  · rw [if_pos h10] at h
    by_cases h10b : ((l.dropWhile (· ≠ '<')).drop 1).contains '>' = true
    · rw [if_pos h10b] at h
      by_cases h10c : (((l.dropWhile (· ≠ '<')).drop 1).takeWhile (· ≠ '>')).contains ',' = true
      · rw [if_pos h10c] at h
        split at h
        · simp at h
        · simp at h
      · rw [if_neg h10c] at h
        simp at h
    · rw [if_neg h10b] at h
      simp at h
  rw [if_neg h10] at h
  by_cases h12 : l.getLast? = some '?'
  · exact h12
  rw [if_neg h12] at h
  simp at h

theorem fsGo_nullable_last (f : Nat) (l : List Char) (t : CSharpType)
    (h : fsGo f l = some (CSharpType.Nullable t)) : l.getLast? = some '?' := by
  cases f with
  | zero => simp [fsGo] at h
  | succ f => exact fsStep_nullable_last (fsGo f) l t h

/-- if the child of a `Nullable` node is clean and not itself `Nullable`,
the node is clean. -/
theorem nestedOk_nullable {x : CSharpType} (hx : nestedOk x = true)
    (hnn : ∀ y, x ≠ CSharpType.Nullable y) : nestedOk (CSharpType.Nullable x) = true := by
  cases x <;> first | rfl | exact hx | exact absurd rfl (hnn _)

/-- the lexicon never produces a `Nullable` directly inside a `Nullable`
when the token has no two consecutive `?` characters anywhere (every token
examined by the recursion is built from infixes of the input, so the `??`-free
property is hereditary, and a nested `Nullable` would need a token ending in
`??`). -/
theorem fsGo_no_nested (f : Nat) :
    ∀ (l : List Char), hasDoubleQ l = false → ∀ t, fsGo f l = some t →
      nestedOk t = true := by
  induction f with
  | zero =>
    intro l _ t ht
    exact absurd ht (by simp [fsGo])
  | succ f ih =>
    intro l hdq t ht
    rw [show fsGo (f+1) l = fsStep (fsGo f) l from rfl, fsStep] at ht
    by_cases h1 : l = "string".data
    · rw [if_pos h1] at ht; cases Option.some.inj ht; rfl
    rw [if_neg h1] at ht
    by_cases h2 : l = "int".data ∨ l = "Int32".data
    · rw [if_pos h2] at ht; cases Option.some.inj ht; rfl
    rw [if_neg h2] at ht
    by_cases h3 : l = "double".data ∨ l = "Double".data
    · rw [if_pos h3] at ht; cases Option.some.inj ht; rfl
    rw [if_neg h3] at ht
    by_cases h4 : l = "decimal".data ∨ l = "Decimal".data
    · rw [if_pos h4] at ht; cases Option.some.inj ht; rfl
    rw [if_neg h4] at ht
    by_cases h5 : l = "bool".data ∨ l = "Boolean".data
    · rw [if_pos h5] at ht; cases Option.some.inj ht; rfl
    rw [if_neg h5] at ht
    by_cases h6 : l = "DateTime".data
    · rw [if_pos h6] at ht; cases Option.some.inj ht; rfl
    rw [if_neg h6] at ht
    by_cases h7 : l = "Guid".data
    · rw [if_pos h7] at ht; cases Option.some.inj ht; rfl
    rw [if_neg h7] at ht
    by_cases h8 : "List<".data.isPrefixOf l = true ∨ "IEnumerable<".data.isPrefixOf l = true
    · rw [if_pos h8] at ht
      by_cases h8b : ((l.dropWhile (· ≠ '<')).drop 1).contains '>' = true
      · rw [if_pos h8b, Option.map_eq_some'] at ht
        obtain ⟨x, hx, rfl⟩ := ht
        have hinf : trimL (((l.dropWhile (· ≠ '<')).drop 1).takeWhile (· ≠ '>')) <:+: l := by
          have i1 : ((l.dropWhile (· ≠ '<')).drop 1).takeWhile (· ≠ '>') <+:
              (l.dropWhile (· ≠ '<')).drop 1 := List.takeWhile_prefix _
          have i2 : (l.dropWhile (· ≠ '<')).drop 1 <:+ l.dropWhile (· ≠ '<') :=
            List.drop_suffix 1 _
          have i3 : l.dropWhile (· ≠ '<') <:+ l := List.dropWhile_suffix _
          exact (trimL_within _).trans (i1.isInfix.trans (i2.isInfix.trans i3.isInfix))
        exact ih _ (hdq_false_of_within hinf hdq) x hx
      · rw [if_neg h8b] at ht
        simp at ht
    rw [if_neg h8] at ht
    by_cases h10 : "Dictionary<".data.isPrefixOf l = true
    · rw [if_pos h10] at ht
      by_cases h10b : ((l.dropWhile (· ≠ '<')).drop 1).contains '>' = true
      · rw [if_pos h10b] at ht
        by_cases h10c :
            (((l.dropWhile (· ≠ '<')).drop 1).takeWhile (· ≠ '>')).contains ',' = true
        · rw [if_pos h10c] at ht
          have icontent : ((l.dropWhile (· ≠ '<')).drop 1).takeWhile (· ≠ '>') <:+: l := by
            have i1 : ((l.dropWhile (· ≠ '<')).drop 1).takeWhile (· ≠ '>') <+:
                (l.dropWhile (· ≠ '<')).drop 1 := List.takeWhile_prefix _
            have i2 : (l.dropWhile (· ≠ '<')).drop 1 <:+ l.dropWhile (· ≠ '<') :=
              List.drop_suffix 1 _
            have i3 : l.dropWhile (· ≠ '<') <:+ l := List.dropWhile_suffix _
            exact i1.isInfix.trans (i2.isInfix.trans i3.isInfix)
          split at ht
          · next k v hk hv =>
            cases Option.some.inj ht
            have hkinf :
                trimL ((((l.dropWhile (· ≠ '<')).drop 1).takeWhile (· ≠ '>')).takeWhile
                  (· ≠ ',')) <:+: l := by
              have j1 : (((l.dropWhile (· ≠ '<')).drop 1).takeWhile (· ≠ '>')).takeWhile
                  (· ≠ ',') <+: ((l.dropWhile (· ≠ '<')).drop 1).takeWhile (· ≠ '>') :=
                List.takeWhile_prefix _
              exact (trimL_within _).trans (j1.isInfix.trans icontent)
            have hvinf :
                trimL (((((((l.dropWhile (· ≠ '<')).drop 1).takeWhile (· ≠ '>')).dropWhile
                  (· ≠ ',')).drop 1)).takeWhile (· ≠ ',')) <:+: l := by
              have j1 : ((((((l.dropWhile (· ≠ '<')).drop 1).takeWhile (· ≠ '>')).dropWhile
                  (· ≠ ',')).drop 1)).takeWhile (· ≠ ',') <+:
                  (((((l.dropWhile (· ≠ '<')).drop 1).takeWhile (· ≠ '>')).dropWhile
                    (· ≠ ',')).drop 1) := List.takeWhile_prefix _
              have j2 : (((((l.dropWhile (· ≠ '<')).drop 1).takeWhile (· ≠ '>')).dropWhile
                  (· ≠ ',')).drop 1) <:+
                  ((((l.dropWhile (· ≠ '<')).drop 1).takeWhile (· ≠ '>')).dropWhile
                    (· ≠ ',')) := List.drop_suffix 1 _
              have j3 : ((((l.dropWhile (· ≠ '<')).drop 1).takeWhile (· ≠ '>')).dropWhile
                  (· ≠ ',')) <:+ (((l.dropWhile (· ≠ '<')).drop 1).takeWhile (· ≠ '>')) :=
                List.dropWhile_suffix _
              exact (trimL_within _).trans
                (j1.isInfix.trans (j2.isInfix.trans (j3.isInfix.trans icontent)))
            simp only [nestedOk, Bool.and_eq_true]
            exact ⟨ih _ (hdq_false_of_within hkinf hdq) k hk,
              ih _ (hdq_false_of_within hvinf hdq) v hv⟩
          · exact absurd ht (by simp)
        · rw [if_neg h10c] at ht
          simp at ht
      · rw [if_neg h10b] at ht
        simp at ht
    rw [if_neg h10] at ht
    by_cases h12 : l.getLast? = some '?'
    · rw [if_pos h12, Option.map_eq_some'] at ht
      obtain ⟨x, hx, rfl⟩ := ht
      have hx2 : nestedOk x = true :=
        ih _ (hdq_false_of_within (List.dropLast_prefix l).isInfix hdq) x hx
      refine nestedOk_nullable hx2 ?_
      intro y hy
      subst hy
      have h2' := fsGo_nullable_last f l.dropLast y hx
      rw [hdq_last_two h12 h2'] at hdq
      exact absurd hdq (by simp)
    rw [if_neg h12] at ht
    cases Option.some.inj ht
    rfl

/-- Claim C4, as stated, is false on the code: the token `int??` *does*
produce `Nullable(Nullable(Int))` — the trailing-`?` arm recurses on `int?`,
which again ends in `?`. -/
theorem claim4_counterexample :
    from_string "int??" = some (CSharpType.Nullable (CSharpType.Nullable CSharpType.Int)) ∧
    nestedOk (CSharpType.Nullable (CSharpType.Nullable CSharpType.Int)) = false := by
  constructor
  · decide
  · rfl

/-- Claim C4 (amended): for every input token with no two consecutive `?`
characters, the `CSharpType` produced by the lexicon contains no `Nullable`
node whose immediate child is another `Nullable` node. -/
theorem claim4_amended (s : String) (h : hasDoubleQ s.data = false) (t : CSharpType)
    (ht : from_string s = some t) : nestedOk t = true :=
  fsGo_no_nested _ s.data h t ht

/-- concrete instantiation of `claim4_amended` at the token `int?`. -/
theorem claim4_witness :
    hasDoubleQ "int?".data = false ∧
    from_string "int?" = some (CSharpType.Nullable CSharpType.Int) ∧
    nestedOk (CSharpType.Nullable CSharpType.Int) = true :=
  ⟨by decide, by decide, claim4_amended "int?" (by decide) _ (by decide)⟩

/-! ## Claim C2: composition laws of `to_zod_type` -/

/-- Claim C2, as stated, is false on the code: the recursive call inside the
`Nullable` (and `Array`) branch goes through `to_zod_type`, which appends the
terminal `.required()` / `.optional()` modifier at *every* level, so the
expression for `Nullable(String)` with both flags false is
`z.string().required().nullable().required()`, not
`z.string().required().nullable()` — and similarly `Array(String)` yields
`z.array(z.string().required()).required()`, not `z.array(z.string().required())`. -/
theorem claim2_counterexample :
    to_zod_type (CSharpType.Nullable CSharpType.String) false false ≠
      to_zod_type CSharpType.String false false ++ ".nullable()" ∧
    to_zod_type (CSharpType.Array CSharpType.String) false false ≠
      "z.array(" ++ to_zod_type CSharpType.String false false ++ ")" := by
  constructor
  · decide
  · decide

/-- Claim C2 (amended): for every `CSharpType` `T` and both flags, the Zod
expression produced for `Nullable(T)` equals the expression produced for `T`
with `".nullable()"` appended **followed by the terminal modifier**
(`.optional()` when `is_update`, else `.required()`), and the expression for
`Array(T)` equals `"z.array(" ++ expr(T) ++ ")"` followed by the same
modifier. -/
theorem claim2_amended (t : CSharpType) (localized is_update : Bool) :
    to_zod_type (CSharpType.Nullable t) localized is_update =
      to_zod_type t localized is_update ++ ".nullable()" ++
        (if is_update then ".optional()" else ".required()") ∧
    to_zod_type (CSharpType.Array t) localized is_update =
      "z.array(" ++ to_zod_type t localized is_update ++ ")" ++
        (if is_update then ".optional()" else ".required()") := by
  cases is_update
  · exact ⟨rfl, rfl⟩
  · exact ⟨rfl, rfl⟩

/-! ## Claim C5: a TOML decode failure is not fatal -/

/-- Claim C5, as stated, is false on the code: `main` (main.rs line 91) runs
`Config::load().unwrap_or_default()`, so a `ParseError` from a malformed
`cs2ts.toml` is silently replaced by the default configuration and the engine
still runs. -/
theorem claim5_counterexample :
    main_startup (.error ConfigError.ParseError) = .runEngine Config.default ∧
    main_startup (.error ConfigError.ParseError) ≠ .abort ConfigError.ParseError :=
  ⟨rfl, by decide⟩

/-- Claim C5 (amended): when `cs2ts.toml` is found but fails to decode as
TOML (`Config::load()` returns an error), the program silently falls back to
the default configuration and proceeds to run the engine; no configuration
outcome aborts startup. -/
theorem claim5_amended (e : ConfigError) :
    main_startup (.error e) = .runEngine Config.default := rfl

/-! ## Claim C1: the CreateUser scenario -/

/-- Claim C1, as stated, is false on the code: parsing
`public record CreateUser(string Name, int? Age, List<string> Tags);` and
rendering the non-localized schema does *not* emit
`    Age: z.number().int().nullable().required(),` or
`    Tags: z.array(z.string()).required(),` — the terminal modifier is
appended at every recursion level of `to_zod_type`, so the inner expressions
also carry `.required()`. -/
theorem claim1_counterexample :
    (CSharpDto.parse
        "public record CreateUser(string Name, int? Age, List<string> Tags);").map
      (fun ds => ds.map fun d => d.properties.map fun p =>
        schema_line p false d.is_update_dto) ≠
    some [["    Name: z.string().required(),\n",
           "    Age: z.number().int().nullable().required(),\n",
           "    Tags: z.array(z.string()).required(),\n"]] := by
  decide

/-- Claim C1 (amended): for that input record, parsed and rendered as a
non-localized Zod schema, the three emitted field lines are exactly
`    Name: z.string().required(),`,
`    Age: z.number().int().required().nullable().required(),` and
`    Tags: z.array(z.string().required()).required(),`, in that order. -/
theorem claim1_amended :
    (CSharpDto.parse
        "public record CreateUser(string Name, int? Age, List<string> Tags);").map
      (fun ds => ds.map fun d => d.properties.map fun p =>
        schema_line p false d.is_update_dto) =
    some [["    Name: z.string().required(),\n",
           "    Age: z.number().int().required().nullable().required(),\n",
           "    Tags: z.array(z.string().required()).required(),\n"]] := by
  decide

/-! ## Claim C6: the terminal modifier of every field -/

theorem parsePropsGo_validations (frags : List String) (ps : List DtoProperty)
    (h : parsePropsGo frags = some ps) : ∀ p ∈ ps, p.validations = [] := by
  induction frags generalizing ps with
  | nil =>
    cases Option.some.inj h
    intro p hp
    simp at hp
  | cons frag rest ih =>
    intro p hp
    rw [parsePropsGo] at h
    split at h
    · exact ih ps h p hp
    · split at h
      · exact absurd h (by simp)
      · rw [Option.map_eq_some'] at h
        obtain ⟨ps', hps', rfl⟩ := h
        rcases List.mem_cons.mp hp with rfl | hp
        · rfl
        · exact ih ps' hps' p hp

theorem buildDtos_validations (content : String) (ms : List (Nat × String × String))
    (ds : List CSharpDto) (h : buildDtos content ms = some ds) :
    ∀ d ∈ ds, ∀ p ∈ d.properties, p.validations = [] := by
  induction ms generalizing ds with
  | nil =>
    cases Option.some.inj h
    intro d hd
    simp at hd
  | cons m rest ih =>
    intro d hd p hp
    rw [buildDtos] at h
    split at h
    · exact absurd h (by simp)
    · next props hpp =>
      rw [Option.map_eq_some'] at h
      obtain ⟨ds', hds', rfl⟩ := h
      rcases List.mem_cons.mp hd with rfl | hd
      · exact parsePropsGo_validations _ props hpp p hp
      · exact ih ds' hds' d hd p hp

/-- the last thing `to_zod_type` appends is the terminal modifier. -/
theorem to_zod_type_suffix (t : CSharpType) (localized is_update : Bool) :
    (if is_update then ".optional()" else ".required()").data <:+
      (to_zod_type t localized is_update).data := by
  cases is_update <;> cases t <;>
    simp only [to_zod_type, String.data_append, reduceIte] <;>
    exact List.suffix_append _ _

/-- Claim C6 (confirmed): for every DTO produced by the parser (which
attaches no validation rules) and every configuration, each top-level field
expression of the rendered schema ends with `.optional()` when the DTO name
starts with `Update` (`is_update_dto`) and with `.required()` otherwise. -/
theorem claim6 (content : String) (config : Config) (ds : List CSharpDto)
    (hp : CSharpDto.parse content = some ds) :
    ∀ d ∈ ds, ∀ p ∈ d.properties,
      (if d.is_update_dto then ".optional()" else ".required()").data <:+
        (schema_field_expr p config.localized d.is_update_dto).data := by
  intro d hd p hpp
  have hv : p.validations = [] :=
    buildDtos_validations content _ ds hp d hd p hpp
  have hsuffix0 : prop_validation_suffix p config.localized = "" := by
    simp [prop_validation_suffix, hv, String.join]
  rw [schema_field_expr, hsuffix0, String.append_empty]
  exact to_zod_type_suffix p.type_name config.localized d.is_update_dto

/-- concrete instantiation of `claim6` at a parsed `CreateUser` DTO and the
default configuration. -/
theorem claim6_witness :
    CSharpDto.parse "public record CreateUser(string Name)" =
      some ([{ name := "CreateUser",
               properties := [{ name := "Name", type_name := CSharpType.String,
                                validations := [], documentation := none }],
               documentation := none }] : List CSharpDto) ∧
    (if ({ name := "CreateUser",
           properties := [{ name := "Name", type_name := CSharpType.String,
                            validations := [], documentation := none }],
           documentation := none } : CSharpDto).is_update_dto
      then ".optional()" else ".required()").data <:+
      (schema_field_expr
        { name := "Name", type_name := CSharpType.String,
          validations := [], documentation := none }
        Config.default.localized
        ({ name := "CreateUser",
           properties := [{ name := "Name", type_name := CSharpType.String,
                            validations := [], documentation := none }],
           documentation := none } : CSharpDto).is_update_dto).data :=
  ⟨by decide,
    claim6 "public record CreateUser(string Name)" Config.default
      [{ name := "CreateUser",
         properties := [{ name := "Name", type_name := CSharpType.String,
                          validations := [], documentation := none }],
         documentation := none }]
      (by decide)
      { name := "CreateUser",
        properties := [{ name := "Name", type_name := CSharpType.String,
                         validations := [], documentation := none }],
        documentation := none }
      (by simp)
      { name := "Name", type_name := CSharpType.String,
        validations := [], documentation := none }
      (by simp)⟩

/-! ## Claim C9: determinism of the renderers -/

/-- Claim C9, as stated, is false on the code: `to_typescript` does not
depend only on the `EnumIR` and the supplied `Config` — it calls
`Config::load().unwrap_or_default()` itself (processor.rs line 500), so with
the identical enum and timestamp the bytes differ when the configuration file
on disk differs (here: `localized` toggles the header's Localization line). -/
theorem claim9_counterexample :
    to_typescript ⟨"Color", [], none⟩ (.ok Config.default) "2025-01-01 00:00:00" ≠
      to_typescript ⟨"Color", [], none⟩
        (.ok { Config.default with localized := true }) "2025-01-01 00:00:00" := by
  decide

/-- Claim C9 (amended): rendering is deterministic in its *actual* inputs.
`to_zod_schema` is a pure function of `(DtoIR, Config, timestamp)`.  The enum
renderer is a pure function of the `EnumIR`, the timestamp and the ambient
`Config::load()` result — not of the supplied `Config` — and everything it
emits after the header block is independent of the timestamp and of the
ambient configuration: dropping each output's header leaves byte-identical
text (the body `enum_body e`). -/
theorem claim9_amended (e : CSharpEnum) (amb1 amb2 : Except ConfigError Config)
    (now1 now2 : String) :
    (to_typescript e amb1 now1).data.drop
        (generate_file_header (unwrap_or_default amb1) "Enum" now1).data.length =
    (to_typescript e amb2 now2).data.drop
        (generate_file_header (unwrap_or_default amb2) "Enum" now2).data.length := by
  simp only [to_typescript, String.data_append, List.drop_left]

/-! ## Claim C7: the incremental skip -/

theorem lookup_insert_self (l : List (String × Nat)) (p : String) (v : Nat) :
    List.lookup p ((p, v) :: l) = some v := by
  simp [List.lookup]

/-- after `should_process_file` on a readable file, the recorded hash is the
hash of the file's content (either it was already equal, or it was just
inserted / updated). -/
theorem should_process_hash (w : World) (fp : FileProcessor) (p content : String)
    (hr : readFile w p = some content) :
    ((should_process_file w fp p).1.file_hashes).lookup p = some (seaHash content.data) := by
  simp only [should_process_file, hr]
  cases ho : fp.file_hashes.lookup p with
  | none =>
    simp only [ho]
    exact lookup_insert_self _ _ _
  | some old =>
    simp only [ho]
    by_cases he : old = seaHash content.data
    · rw [if_pos he]
      rw [ho, he]
    · rw [if_neg he]
      exact lookup_insert_self _ _ _

theorem should_process_mapping (w : World) (fp : FileProcessor) (p : String) :
    (should_process_file w fp p).1.file_mapping = fp.file_mapping := by
  cases hr : readFile w p with
  | none => simp only [should_process_file, hr]
  | some content =>
    simp only [should_process_file, hr]
    cases ho : fp.file_hashes.lookup p with
    | none => simp only [ho]
    | some old =>
      simp only [ho]
      by_cases he : old = seaHash content.data
      · rw [if_pos he]
      · rw [if_neg he]

theorem should_process_stats (w : World) (fp : FileProcessor) (p : String) :
    (should_process_file w fp p).1.stats = fp.stats := by
  cases hr : readFile w p with
  | none => simp only [should_process_file, hr]
  | some content =>
    simp only [should_process_file, hr]
    cases ho : fp.file_hashes.lookup p with
    | none => simp only [ho]
    | some old =>
      simp only [ho]
      by_cases he : old = seaHash content.data
      · rw [if_pos he]
      · rw [if_neg he]

theorem writeEnumOutputs_hashes (es : List CSharpEnum) (w : World) (fp : FileProcessor)
    (input od now : String) :
    (writeEnumOutputs w fp es input od now).2.file_hashes = fp.file_hashes := by
  induction es generalizing w fp with
  | nil => rfl
  | cons e rest ih =>
    rw [writeEnumOutputs]
    rw [ih]
    rfl

theorem writeDtoOutputs_hashes (ds : List CSharpDto) (w : World) (fp : FileProcessor)
    (input od : String) (config : Config) (now : String) :
    (writeDtoOutputs w fp ds input od config now).2.file_hashes = fp.file_hashes := by
  induction ds generalizing w fp with
  | nil => rfl
  | cons d rest ih =>
    rw [writeDtoOutputs]
    rw [ih]
    rfl

/-- whatever `process_file` does (skip, cleanup failure, read failure, parse
panic, or a full run), afterwards the hash table maps the input to the hash of
the content it had when the call began. -/
theorem process_file_hash (w : World) (fp : FileProcessor)
    (ip ir orr : String) (config : Config) (now : String) (content : String)
    (hr : readFile w ip = some content) :
    ((process_file w fp ip ir orr config now).2.1.file_hashes).lookup ip =
      some (seaHash content.data) := by
  have hsp := should_process_hash w fp ip content hr
  rw [process_file]
  by_cases hb : (should_process_file w fp ip).2 = false
  · rw [if_pos hb]
    exact hsp
  · rw [if_neg hb]
    by_cases hcl : (cleanup_outputs w
        { (should_process_file w fp ip).1 with stats :=
          { (should_process_file w fp ip).1.stats with files_processed :=
              (should_process_file w fp ip).1.stats.files_processed + 1 } } ip).2 = false
    · rw [if_pos hcl]
      exact hsp
    · rw [if_neg hcl]
      cases hrd : readFile (cleanup_outputs w
          { (should_process_file w fp ip).1 with stats :=
            { (should_process_file w fp ip).1.stats with files_processed :=
                (should_process_file w fp ip).1.stats.files_processed + 1 } } ip).1 ip with
      | none =>
        simp only [hrd]
        exact hsp
      | some content2 =>
        simp only [hrd]
        cases hdp : CSharpDto.parse content2 with
        | none =>
          simp only [hdp, writeEnumOutputs_hashes]
          exact hsp
        | some dtos =>
          simp only [hdp, writeDtoOutputs_hashes, writeEnumOutputs_hashes]
          exact hsp

/-- a call on a file whose recorded hash matches its content is a pure skip:
the world is untouched and only `files_skipped` changes. -/
theorem process_file_skip (w : World) (fp : FileProcessor)
    (ip ir orr : String) (config : Config) (now : String) (content : String)
    (hr : readFile w ip = some content)
    (hh : fp.file_hashes.lookup ip = some (seaHash content.data)) :
    process_file w fp ip ir orr config now =
      (w, { fp with stats :=
        { fp.stats with files_skipped := fp.stats.files_skipped + 1 } },
       RunResult.ok) := by
  have hsp : should_process_file w fp ip = (fp, false) := by
    simp [should_process_file, hr, hh]
  rw [process_file, hsp, if_pos rfl]

/-- Claim C7 (confirmed): calling `process_file` twice on the same input
path, with the file content unchanged between the calls, writes outputs at
most in the first call: the second call increments `files_skipped` by one,
performs no filesystem write or delete (its world is returned unchanged), and
leaves `file_hashes`, `file_mapping`, `files_processed`, `enums_generated`
and `schemas_generated` exactly as the first call left them. -/
theorem claim7 (w : World) (fp : FileProcessor)
    (ip ir orr : String) (config : Config) (now1 now2 : String) (content : String)
    (h1 : readFile w ip = some content)
    (h2 : readFile (process_file w fp ip ir orr config now1).1 ip = some content) :
    process_file (process_file w fp ip ir orr config now1).1
        (process_file w fp ip ir orr config now1).2.1 ip ir orr config now2 =
      ((process_file w fp ip ir orr config now1).1,
       { (process_file w fp ip ir orr config now1).2.1 with stats :=
         { (process_file w fp ip ir orr config now1).2.1.stats with files_skipped :=
             (process_file w fp ip ir orr config now1).2.1.stats.files_skipped + 1 } },
       RunResult.ok) :=
  process_file_skip _ _ _ _ _ _ _ _ h2
    (process_file_hash w fp ip ir orr config now1 content h1)

/-- concrete instantiation of `claim7`: one readable `.cs` file, a fresh
processor, two identical calls. -/
theorem claim7_witness :
    readFile ⟨[("in/a.cs", "public record CreateUser(string Name)")], [],
        .ok Config.default⟩ "in/a.cs" = some "public record CreateUser(string Name)" ∧
    readFile (process_file
        ⟨[("in/a.cs", "public record CreateUser(string Name)")], [], .ok Config.default⟩
        FileProcessor.new "in/a.cs" "in" "out" Config.default "T1").1 "in/a.cs" =
      some "public record CreateUser(string Name)" ∧
    process_file
        (process_file
          ⟨[("in/a.cs", "public record CreateUser(string Name)")], [], .ok Config.default⟩
          FileProcessor.new "in/a.cs" "in" "out" Config.default "T1").1
        (process_file
          ⟨[("in/a.cs", "public record CreateUser(string Name)")], [], .ok Config.default⟩
          FileProcessor.new "in/a.cs" "in" "out" Config.default "T1").2.1
        "in/a.cs" "in" "out" Config.default "T2" =
      ((process_file
          ⟨[("in/a.cs", "public record CreateUser(string Name)")], [], .ok Config.default⟩
          FileProcessor.new "in/a.cs" "in" "out" Config.default "T1").1,
       { (process_file
            ⟨[("in/a.cs", "public record CreateUser(string Name)")], [], .ok Config.default⟩
            FileProcessor.new "in/a.cs" "in" "out" Config.default "T1").2.1 with stats :=
         { (process_file
              ⟨[("in/a.cs", "public record CreateUser(string Name)")], [], .ok Config.default⟩
              FileProcessor.new "in/a.cs" "in" "out" Config.default "T1").2.1.stats with
             files_skipped :=
               (process_file
                  ⟨[("in/a.cs", "public record CreateUser(string Name)")], [],
                    .ok Config.default⟩
                  FileProcessor.new "in/a.cs" "in" "out" Config.default "T1").2.1.stats.files_skipped
                 + 1 } },
       RunResult.ok) :=
  ⟨by decide, by decide,
    claim7 ⟨[("in/a.cs", "public record CreateUser(string Name)")], [], .ok Config.default⟩
      FileProcessor.new "in/a.cs" "in" "out" Config.default "T1" "T2"
      "public record CreateUser(string Name)" (by decide) (by decide)⟩

/-! ## Claim C8: cleanup failure aborts the call -/

/-- Claim C8, as stated, is false on the code: `cleanup_outputs` is called
with `?` (processor.rs line 231) and itself propagates `remove_file` failures
with `?` (line 201), so a failed deletion of one registered, still-existing
output makes `process_file` return the error before reading, parsing,
rendering or writing anything: here the world is returned unchanged (the
stale output is still on disk, no new output was written) and only
`files_processed` and the hash table have advanced. -/
theorem claim8_counterexample :
    (process_file
        ⟨[("in/a.cs", "public record CreateUser(string Name)"), ("out/a.schema.ts", "old")],
          ["out/a.schema.ts"], .ok Config.default⟩
        { file_hashes := [], file_mapping := [("in/a.cs", ["out/a.schema.ts"])],
          stats := ⟨0, 0, 0, 0⟩ }
        "in/a.cs" "in" "out" Config.default "T").2.2 = RunResult.ioError ∧
    (process_file
        ⟨[("in/a.cs", "public record CreateUser(string Name)"), ("out/a.schema.ts", "old")],
          ["out/a.schema.ts"], .ok Config.default⟩
        { file_hashes := [], file_mapping := [("in/a.cs", ["out/a.schema.ts"])],
          stats := ⟨0, 0, 0, 0⟩ }
        "in/a.cs" "in" "out" Config.default "T").1 =
      ⟨[("in/a.cs", "public record CreateUser(string Name)"), ("out/a.schema.ts", "old")],
        ["out/a.schema.ts"], .ok Config.default⟩ ∧
    (process_file
        ⟨[("in/a.cs", "public record CreateUser(string Name)"), ("out/a.schema.ts", "old")],
          ["out/a.schema.ts"], .ok Config.default⟩
        { file_hashes := [], file_mapping := [("in/a.cs", ["out/a.schema.ts"])],
          stats := ⟨0, 0, 0, 0⟩ }
        "in/a.cs" "in" "out" Config.default "T").2.1.stats = ⟨1, 0, 0, 0⟩ := by
  refine ⟨?_, ?_, ?_⟩
  · decide
  · decide
  · decide

/-- Claim C8 (amended): stale-output cleanup is *not* best effort.  When the
skip check decides to process and deleting one of the registered,
still-existing outputs fails, `process_file` stops at the cleanup: it returns
the I/O error with the partially-cleaned world, having only recorded the new
hash and incremented `files_processed`; parsing, rendering and writing of the
new outputs are abandoned. -/
theorem claim8_amended (w : World) (fp : FileProcessor)
    (ip ir orr : String) (config : Config) (now : String)
    (hsp : (should_process_file w fp ip).2 = true)
    (hcl : (removeOutputs w ((fp.file_mapping.lookup ip).getD [])).2 = false) :
    process_file w fp ip ir orr config now =
      ((removeOutputs w ((fp.file_mapping.lookup ip).getD [])).1,
       { (should_process_file w fp ip).1 with stats :=
         { (should_process_file w fp ip).1.stats with files_processed :=
             (should_process_file w fp ip).1.stats.files_processed + 1 } },
       RunResult.ioError) := by
  rw [process_file, if_neg (by simp [hsp])]
  simp only [cleanup_outputs, should_process_mapping]
  rw [if_pos hcl]

/-- concrete instantiation of `claim8_amended` at the counterexample state. -/
theorem claim8_witness :
    (should_process_file
        ⟨[("in/b.cs", "x"), ("out/b.ts", "old")], ["out/b.ts"], .ok Config.default⟩
        { file_hashes := [], file_mapping := [("in/b.cs", ["out/b.ts"])],
          stats := ⟨0, 0, 0, 0⟩ } "in/b.cs").2 = true ∧
    (removeOutputs ⟨[("in/b.cs", "x"), ("out/b.ts", "old")], ["out/b.ts"], .ok Config.default⟩
        ((({ file_hashes := [], file_mapping := [("in/b.cs", ["out/b.ts"])],
             stats := ⟨0, 0, 0, 0⟩ } : FileProcessor).file_mapping.lookup "in/b.cs").getD
          [])).2 = false ∧
    process_file
        ⟨[("in/b.cs", "x"), ("out/b.ts", "old")], ["out/b.ts"], .ok Config.default⟩
        { file_hashes := [], file_mapping := [("in/b.cs", ["out/b.ts"])],
          stats := ⟨0, 0, 0, 0⟩ }
        "in/b.cs" "in" "out" Config.default "T" =
      ((removeOutputs
          ⟨[("in/b.cs", "x"), ("out/b.ts", "old")], ["out/b.ts"], .ok Config.default⟩
          ((({ file_hashes := [], file_mapping := [("in/b.cs", ["out/b.ts"])],
               stats := ⟨0, 0, 0, 0⟩ } : FileProcessor).file_mapping.lookup "in/b.cs").getD
            [])).1,
       { (should_process_file
            ⟨[("in/b.cs", "x"), ("out/b.ts", "old")], ["out/b.ts"], .ok Config.default⟩
            { file_hashes := [], file_mapping := [("in/b.cs", ["out/b.ts"])],
              stats := ⟨0, 0, 0, 0⟩ } "in/b.cs").1 with stats :=
         { (should_process_file
              ⟨[("in/b.cs", "x"), ("out/b.ts", "old")], ["out/b.ts"], .ok Config.default⟩
              { file_hashes := [], file_mapping := [("in/b.cs", ["out/b.ts"])],
                stats := ⟨0, 0, 0, 0⟩ } "in/b.cs").1.stats with files_processed :=
             (should_process_file
                ⟨[("in/b.cs", "x"), ("out/b.ts", "old")], ["out/b.ts"], .ok Config.default⟩
                { file_hashes := [], file_mapping := [("in/b.cs", ["out/b.ts"])],
                  stats := ⟨0, 0, 0, 0⟩ } "in/b.cs").1.stats.files_processed + 1 } },
       RunResult.ioError) :=
  ⟨by decide, by decide,
    claim8_amended
      ⟨[("in/b.cs", "x"), ("out/b.ts", "old")], ["out/b.ts"], .ok Config.default⟩
      { file_hashes := [], file_mapping := [("in/b.cs", ["out/b.ts"])],
        stats := ⟨0, 0, 0, 0⟩ }
      "in/b.cs" "in" "out" Config.default "T" (by decide) (by decide)⟩

/-! ## Claim C10: `.cs` replacement in output file names -/

theorem replaceGo_nil (pat rep : List Char) (fuel : Nat) :
    replaceGo pat rep fuel [] = [] := by
  cases fuel <;> rfl

/-- a match step of `replaceGo`. -/
theorem replaceGo_match (pat rep s : List Char) (fuel : Nat)
    (hp : pat ≠ []) (hpre : pat.isPrefixOf s = true) :
    replaceGo pat rep (fuel + 1) s = rep ++ replaceGo pat rep fuel (s.drop pat.length) := by
  cases s with
  | nil =>
    cases pat with
    | nil => exact absurd rfl hp
    | cons c cs => simp [List.isPrefixOf] at hpre
  | cons c rest =>
    rw [replaceGo, if_pos]
    simp [hpre, hp, List.isEmpty_iff]

/-- a non-match step of `replaceGo`. -/
theorem replaceGo_no_match (pat rep : List Char) (c : Char) (rest : List Char) (fuel : Nat)
    (h : pat.isPrefixOf (c :: rest) = false) :
    replaceGo pat rep (fuel + 1) (c :: rest) = c :: replaceGo pat rep fuel rest := by
  rw [replaceGo, if_neg]
  simp [h]

theorem pref_of_append {p A B : List Char} (h : p <+: A ++ B) (hl : p.length ≤ A.length) :
    p <+: A := by
  rw [List.prefix_iff_eq_take] at h ⊢
  rwa [List.take_append_of_le_length hl] at h

/-- replacing `".cs"` in `stem ++ ".cs.cs"` when no occurrence starts inside
`stem` (nor straddles into the first `.c`): both occurrences are rewritten. -/
theorem replace_cs_two (rep : List Char) :
    ∀ (stem : List Char) (fuel : Nat), (stem ++ ".cs.cs".data).length ≤ fuel →
      (¬ (".cs".data <:+: stem ++ ['.', 'c'])) →
      replaceGo ".cs".data rep fuel (stem ++ ".cs.cs".data) = stem ++ rep ++ rep := by
  intro stem
  induction stem with
  | nil =>
    intro fuel hf _
    obtain ⟨f1, rfl⟩ : ∃ f', fuel = f' + 1 := ⟨fuel - 1, by simp at hf; omega⟩
    have hf1 : 5 ≤ f1 := by simp at hf; omega
    obtain ⟨f2, rfl⟩ : ∃ f', f1 = f' + 1 := ⟨f1 - 1, by omega⟩
    rw [show (([] : List Char) ++ ".cs.cs".data) = ".cs.cs".data from rfl,
      replaceGo_match _ _ _ _ (by decide) (by decide),
      show (".cs.cs".data.drop ".cs".data.length) = ".cs".data from rfl,
      replaceGo_match _ _ _ _ (by decide) (by decide),
      show (".cs".data.drop ".cs".data.length) = ([] : List Char) from rfl,
      replaceGo_nil]
    simp
  | cons c stem ih =>
    intro fuel hf hinf
    obtain ⟨f1, rfl⟩ : ∃ f', fuel = f' + 1 := ⟨fuel - 1, by simp at hf; omega⟩
    have hnp : ".cs".data.isPrefixOf ((c :: stem) ++ ".cs.cs".data) = false := by
      cases hcon : ".cs".data.isPrefixOf ((c :: stem) ++ ".cs.cs".data) with
      | false => rfl
      | true =>
        exfalso
        have hpre : ".cs".data <+: (c :: stem) ++ ".cs.cs".data :=
          List.isPrefixOf_iff_prefix.mp hcon
        have hsplit : (c :: stem) ++ ".cs.cs".data =
            ((c :: stem) ++ ['.', 'c']) ++ ('s' :: ".cs".data) := by
          simp
        rw [hsplit] at hpre
        have hlen : ".cs".data.length ≤ ((c :: stem) ++ ['.', 'c']).length := by
          simp
        exact hinf (pref_of_append hpre hlen).isInfix
    rw [List.cons_append, replaceGo_no_match _ _ _ _ _ (by
        rw [← List.cons_append]; exact hnp),
      ih f1 (by simp at hf ⊢; omega) (fun hx => hinf (List.infix_cons hx))]
    simp

/-- Claim C10 (confirmed): output filename derivation replaces *every*
occurrence of `.cs` in the input file name, not only a trailing extension:
for a name of the shape `stem ++ ".cs.cs"` in which no occurrence of `.cs`
begins inside `stem` (nor straddles into the following `.c`), the enum output
name rewrites both occurrences to `.ts` and the schema output name rewrites
both to `.schema.ts` — e.g. `A.cs.cs` becomes `A.ts.ts` and
`A.schema.ts.schema.ts`. -/
theorem claim10 (stem : List Char)
    (h : ¬ (".cs".data <:+: stem ++ ['.', 'c'])) :
    replaceAllStr ⟨stem ++ ".cs.cs".data⟩ ".cs" ".ts" =
      ⟨stem ++ ".ts".data ++ ".ts".data⟩ ∧
    replaceAllStr ⟨stem ++ ".cs.cs".data⟩ ".cs" ".schema.ts" =
      ⟨stem ++ ".schema.ts".data ++ ".schema.ts".data⟩ := by
  constructor
  · exact congrArg String.mk (replace_cs_two ".ts".data stem _ le_rfl h)
  · exact congrArg String.mk (replace_cs_two ".schema.ts".data stem _ le_rfl h)

/-- concrete instantiation of `claim10` at the input name `A.cs.cs`. -/
theorem claim10_witness :
    (¬ (".cs".data <:+: "A".data ++ ['.', 'c'])) ∧
    replaceAllStr "A.cs.cs" ".cs" ".ts" = "A.ts.ts" ∧
    replaceAllStr "A.cs.cs" ".cs" ".schema.ts" = "A.schema.ts.schema.ts" := by
  refine ⟨by decide, ?_, ?_⟩
  · have h := (claim10 "A".data (by decide)).1
    exact h
  · have h := (claim10 "A".data (by decide)).2
    exact h


end UniTrack
